import Mathlib

/-
Formal model of the esp-config-updater core (src/espcfg/main.py):
the table -> island decoder, the control adapters, the processor's
row dispatch and precheck, and the two-phase discovery engine.

The source grid is modelled as a list of rows, each row a list of cell
strings.  Python exceptions (IndexError, KeyError, AssertionError,
LookupError, ValueError, SystemExit, UnboundLocalError) are modelled with
Option/Except results.  Python in-place mutation of the grid
(table.append in readIslands) is modelled by returning the new grid.
-/

/-! ### String helpers (Python str operations used by main.py) -/

/-- Python s.startswith("#"): true iff the first character is '#'. -/
def startsWithHash (s : String) : Bool := s.data.head? == some '#'

/-- Python s.startswith("!") test, as the first character of the string. -/
def strHead? (s : String) : Option Char := s.data.head?

/-- Python s[1:]: drop the first character. -/
def strTail (s : String) : String := String.mk s.data.tail

/-- Python s.endswith('?') test, as the last character of the string. -/
def strLast? (s : String) : Option Char := s.data.getLast?

/-- Python s[:-1]: drop the last character. -/
def strDropLast (s : String) : String := String.mk s.data.dropLast

/-- Python s.replace(".", "_"): single-character replacement is a map
over the characters. -/
def replaceDots (s : String) : String :=
  String.mk (s.data.map (fun c => if c = '.' then '_' else c))

/-! ### Island decoder (readIslands / loadIsland / getIslandRow) -/

/-- The island top-left marker literal (main.py ISLAND_CORNER). -/
def ISLAND_CORNER : String := "units IP/addr"

/-- dataclass Row: one decoded config line. -/
structure Row where
  url : String
  control : String
  value : String
deriving DecidableEq, Repr

/-- dataclass Island: unit list, rows grouped by url (insertion-ordered
defaultdict, modelled as an association list), and the flat row list. -/
structure Island where
  units : List String
  urls : List (String × List Row)
  data : List Row
deriving DecidableEq, Repr

/-- table[ridx][cidx] with IndexError modelled as none. -/
def getCell? (table : List (List String)) (ridx cidx : Nat) : Option String :=
  (table.get? ridx).bind (fun row => row.get? cidx)

/-- getIslandRow(table, ridx, cidx, previous): reads the three cells of a
row; a blank url cell is replaced by the previous row's url (Python
`url = url or previous.url` when previous is not None).  The row is
given directly (the caller indexes the table); a missing cell is an
IndexError, modelled as none. -/
def getIslandRow (tableRow : List String) (cidx : Nat) (previous : Option Row) : Option Row :=
  match tableRow.get? cidx, tableRow.get? (cidx + 1), tableRow.get? (cidx + 2) with
  | some url, some control, some value =>
    let url := match previous with
      | some prev => if url = "" then prev.url else url
      | none => url
    some { url := url, control := control, value := value }
  | _, _, _ => none

/-- The unit-list loop of loadIsland: walk rows below the marker collecting
cells in the marker column until the header row ("URL" with "control name"
one column to the right) is found; returns the units and the remaining
rows starting at the header row.  Walking past the end of the table is an
IndexError (none). -/
def readUnits (cidx : Nat) : List (List String) → Option (List String × List (List String))
  | [] => none
  | tableRow :: below =>
    match tableRow.get? cidx with
    | none => none
    | some unit =>
      if unit = "URL" then
        match tableRow.get? (cidx + 1) with
        | none => none
        | some c =>
          if c = "control name" then
            some ([], tableRow :: below)
          else
            match readUnits cidx below with
            | none => none
            | some (us, rest) => some (unit :: us, rest)
      else
        match readUnits cidx below with
        | none => none
        | some (us, rest) => some (unit :: us, rest)

/-- urls[row.url].append(row) on an insertion-ordered defaultdict(list). -/
def addToUrls (urls : List (String × List Row)) (row : Row) : List (String × List Row) :=
  match urls with
  | [] => [(row.url, [row])]
  | (k, rs) :: rest =>
    if k = row.url then (k, rs ++ [row]) :: rest
    else (k, rs) :: addToUrls rest row

/-- The data loop of loadIsland: read rows (with url carry-forward via the
previous decoded row) until a row with an empty control cell or a url cell
equal to ISLAND_CORNER; comment rows (control starting with '#') are
consumed but not collected.  Walking past the end of the table is an
IndexError (none). -/
def readData (cidx : Nat) : Option Row → List Row → List (String × List Row) →
    List (List String) → Option (List Row × List (String × List Row))
  | _, _, _, [] => none
  | prevRow, data, urls, tableRow :: below =>
    match getIslandRow tableRow cidx prevRow with
    | none => none
    | some row =>
      if row.control = "" ∨ row.url = ISLAND_CORNER then
        some (data, urls)
      else
        let acc := if startsWithHash row.control then (data, urls)
                   else (data ++ [row], addToUrls urls row)
        readData cidx (some row) acc.1 acc.2 below

/-- loadIsland(table, ridx, cidx): assert the marker, read the unit list,
validate the header literals, then read the data rows below the header. -/
def loadIsland (table : List (List String)) (ridx cidx : Nat) : Option Island :=
  (getCell? table ridx cidx).bind (fun cornerCell =>
    if cornerCell = ISLAND_CORNER then
      (readUnits cidx (table.drop (ridx + 1))).bind (fun ur =>
        ur.2.head?.bind (fun headerRow =>
          (getIslandRow headerRow cidx none).bind (fun header =>
            if header.url = "URL" ∧ header.control = "control name" ∧
                header.value = "value" then
              (readData cidx none [] [] ur.2.tail).bind (fun du =>
                some { units := ur.1, urls := du.2, data := du.1 })
            else none)))
    else none)

/-- Inner loop of the scan in readIslands: column indices of cells equal
to ISLAND_CORNER in one row. -/
def cornerColsAux (cidx : Nat) : List String → List Nat
  | [] => []
  | c :: cs =>
    if c = ISLAND_CORNER then cidx :: cornerColsAux (cidx + 1) cs
    else cornerColsAux (cidx + 1) cs

/-- Outer loop of the scan in readIslands: (row, column) positions of all
marker cells, in row-major order. -/
def cornerRowsAux (ridx : Nat) : List (List String) → List (Nat × Nat)
  | [] => []
  | row :: rest =>
    (cornerColsAux 0 row).map (fun c => (ridx, c)) ++ cornerRowsAux (ridx + 1) rest

/-- All marker-cell positions of a grid, in row-major scan order. -/
def cornerPositions (table : List (List String)) : List (Nat × Nat) :=
  cornerRowsAux 0 table

/-- Load one island per marker position, in scan order; any failure
(propagating exception) aborts the whole decode. -/
def loadIslands (table : List (List String)) : List (Nat × Nat) → Option (List Island)
  | [] => some []
  | pos :: rest =>
    (loadIsland table pos.1 pos.2).bind (fun island =>
      (loadIslands table rest).bind (fun islands => some (island :: islands)))

/-- readIslands(table): append a synthetic blank row (same column count as
the last row; Python table.append mutates the caller's list, modelled by
also returning the grown grid), then scan every cell and decode an island
at each marker cell. -/
def readIslands (table : List (List String)) :
    Option (List Island × List (List String)) :=
  table.getLast?.bind (fun lastRow =>
    let grown := table ++ [List.replicate lastRow.length ""]
    (loadIslands grown (cornerPositions grown)).bind (fun islands =>
      some (islands, grown)))

/-! ### Derived decoder vocabulary used to state the decoder claims -/

/-- A grid holding a single island anchored at (0, 0): the marker row, one
row per unit, the fixed header row, then the data rows. -/
def mkIslandGrid (units : List String) (rows : List (List String)) : List (List String) :=
  [ISLAND_CORNER, "", ""] ::
    (units.map (fun u => [u, "", ""]) ++ (["URL", "control name", "value"] :: rows))

/-- Reference decode of a block of raw 3-cell data rows, carrying the url
forward through every row (comments included), mirroring the per-row logic
of the data loop; used to characterize readData's output. -/
def decodeRows (cidx : Nat) : Option Row → List (List String) → List Row
  | _, [] => []
  | prev, tableRow :: below =>
    let rawUrl := tableRow.getD cidx ""
    let url := match prev with
      | some p => if rawUrl = "" then p.url else rawUrl
      | none => rawUrl
    let row : Row := { url := url, control := tableRow.getD (cidx + 1) "",
                       value := tableRow.getD (cidx + 2) "" }
    row :: decodeRows cidx (some row) below

/-- First-occurrence deduplication of a list of keys, mirroring the key
iteration order of an insertion-ordered dict. -/
def firstOcc (l : List String) : List String :=
  l.foldl (fun acc u => if u ∈ acc then acc else acc ++ [u]) []

/-! ### Decoder lemmas -/

lemma exists_three (r : List String) (h : r.length = 3) : ∃ a b c, r = [a, b, c] := by
  match r, h with
  | [a, b, c], _ => exact ⟨a, b, c, rfl⟩


lemma readData_cons_step (prev : Option Row) (data : List Row)
    (urls : List (String × List Row)) (tableRow : List String)
    (below : List (List String)) (row : Row)
    (hget : getIslandRow tableRow 0 prev = some row)
    (hc : row.control ≠ "") (hu : row.url ≠ ISLAND_CORNER) :
    readData 0 prev data urls (tableRow :: below) =
      readData 0 (some row)
        (if startsWithHash row.control then data else data ++ [row])
        (if startsWithHash row.control then urls else addToUrls urls row) below := by
  simp only [readData, hget]
  rw [if_neg (by simp [hc, hu])]
  cases hcm : startsWithHash row.control <;> simp [hcm]

lemma readData_eq_decodeRows (rows : List (List String)) :
    ∀ (prev : Option Row) (data : List Row) (urls : List (String × List Row)),
    (∀ r ∈ rows, r.length = 3 ∧ r.getD 1 "" ≠ "" ∧ r.getD 0 "" ≠ ISLAND_CORNER) →
    (∀ p, prev = some p → p.url ≠ ISLAND_CORNER) →
    readData 0 prev data urls (rows ++ [List.replicate 3 ""]) =
      some (data ++ (decodeRows 0 prev rows).filter (fun r => !startsWithHash r.control),
            ((decodeRows 0 prev rows).filter
              (fun r => !startsWithHash r.control)).foldl addToUrls urls) := by
  induction rows with
  | nil =>
    intro prev data urls _ _
    cases prev <;> simp [readData, getIslandRow, decodeRows, List.replicate]
  | cons r rest ih =>
    intro prev data urls h hprev
    obtain ⟨a, b, c, rfl⟩ := exists_three r (h r (List.mem_cons_self r rest)).1
    have hb : b ≠ "" := by
      simpa using (h [a, b, c] (List.mem_cons_self _ rest)).2.1
    have ha : a ≠ ISLAND_CORNER := by
      simpa using (h [a, b, c] (List.mem_cons_self _ rest)).2.2
    have hrow : ∃ row : Row, getIslandRow [a, b, c] 0 prev = some row ∧
        row.control = b ∧ row.url ≠ ISLAND_CORNER ∧
        decodeRows 0 prev ([a, b, c] :: rest) = row :: decodeRows 0 (some row) rest := by
      cases prev with
      | none =>
        exact ⟨⟨a, b, c⟩, by simp [getIslandRow], rfl, ha, by simp [decodeRows]⟩
      | some p =>
        by_cases hae : a = ""
        · exact ⟨⟨p.url, b, c⟩, by simp [getIslandRow, hae], rfl, hprev p rfl,
            by simp [decodeRows, hae]⟩
        · exact ⟨⟨a, b, c⟩, by simp [getIslandRow, hae], rfl, ha,
            by simp [decodeRows, hae]⟩
    obtain ⟨row, hget, hbc, hru, hdec⟩ := hrow
    have hrest : ∀ r2 ∈ rest, r2.length = 3 ∧ r2.getD 1 "" ≠ "" ∧
        r2.getD 0 "" ≠ ISLAND_CORNER := fun r2 hr2 => h r2 (by simp [hr2])
    have hprev2 : ∀ p, some row = some p → p.url ≠ ISLAND_CORNER := by
      intro p hp
      cases hp
      exact hru
    rw [List.cons_append,
      readData_cons_step prev data urls _ _ row hget (by rw [hbc]; exact hb) hru, hdec]
    by_cases hcm : startsWithHash row.control = true
    · rw [if_pos hcm, if_pos hcm]
      rw [ih (some row) data urls hrest hprev2]
      simp [List.filter_cons, hcm]
    · rw [if_neg hcm, if_neg hcm]
      rw [ih (some row) (data ++ [row]) (addToUrls urls row) hrest hprev2]
      simp [List.filter_cons, hcm]

lemma readUnits_mkGrid (units : List String) (rest : List (List String)) :
    readUnits 0 (units.map (fun u => [u, "", ""]) ++
      (["URL", "control name", "value"] :: rest)) =
      some (units, ["URL", "control name", "value"] :: rest) := by
  induction units with
  | nil => simp [readUnits]
  | cons u us ih =>
    by_cases hu : u = "URL"
    · simp [readUnits, hu, ih]
    · simp [readUnits, hu, ih]

lemma cornerColsAux_eq_nil (row : List String) (h : ∀ c ∈ row, c ≠ ISLAND_CORNER) :
    ∀ i, cornerColsAux i row = [] := by
  induction row with
  | nil => intro i; rfl
  | cons c cs ih =>
    intro i
    have hc : c ≠ ISLAND_CORNER := h c (List.mem_cons_self c cs)
    simp [cornerColsAux, hc]
    exact ih (fun x hx => h x (by simp [hx])) (i + 1)

lemma cornerRowsAux_eq_nil (rows : List (List String))
    (h : ∀ row ∈ rows, ∀ c ∈ row, c ≠ ISLAND_CORNER) :
    ∀ i, cornerRowsAux i rows = [] := by
  induction rows with
  | nil => intro i; rfl
  | cons row rest ih =>
    intro i
    rw [cornerRowsAux, cornerColsAux_eq_nil row (h row (List.mem_cons_self row rest)) 0]
    simp
    exact ih (fun r hr => h r (by simp [hr])) (i + 1)

lemma cornerPositions_mkGrid (units : List String) (rows : List (List String))
    (hu : ∀ u ∈ units, u ≠ ISLAND_CORNER)
    (hrows : ∀ r ∈ rows, ∀ c ∈ r, c ≠ ISLAND_CORNER) :
    cornerPositions (mkIslandGrid units rows ++ [List.replicate 3 ""]) = [(0, 0)] := by
  have hrest : ∀ row ∈ (units.map (fun u => [u, "", ""]) ++
      (["URL", "control name", "value"] :: rows)) ++ [List.replicate 3 ""],
      ∀ c ∈ row, c ≠ ISLAND_CORNER := by
    intro row hrow c hc
    rcases List.mem_append.mp hrow with h1 | h1
    · rcases List.mem_append.mp h1 with h2 | h2
      · obtain ⟨u, hu2, rfl⟩ := List.mem_map.mp h2
        simp only [List.mem_cons, List.not_mem_nil, or_false] at hc
        rcases hc with rfl | rfl | rfl
        · exact hu _ hu2
        · decide
        · decide
      · rcases List.mem_cons.mp h2 with rfl | h3
        · simp only [List.mem_cons, List.not_mem_nil, or_false] at hc
          rcases hc with rfl | rfl | rfl <;> decide
        · exact hrows row h3 c hc
    · have hr : row = List.replicate 3 "" := by simpa using h1
      subst hr
      have : c = "" := List.eq_of_mem_replicate hc
      subst this
      decide
  rw [cornerPositions, mkIslandGrid, List.cons_append, cornerRowsAux]
  rw [cornerRowsAux_eq_nil _ hrest 1]
  simp [cornerColsAux]
  decide

/-- The Island value produced for a single well-formed island block. -/
def decodedIsland (units : List String) (rows : List (List String)) : Island :=
  { units := units,
    urls := ((decodeRows 0 none rows).filter
      (fun r => !startsWithHash r.control)).foldl addToUrls [],
    data := (decodeRows 0 none rows).filter (fun r => !startsWithHash r.control) }

lemma loadIsland_mkGrid (units : List String) (rows : List (List String))
    (hrows : ∀ r ∈ rows, r.length = 3 ∧ r.getD 1 "" ≠ "" ∧ r.getD 0 "" ≠ ISLAND_CORNER) :
    loadIsland (mkIslandGrid units rows ++ [List.replicate 3 ""]) 0 0 =
      some (decodedIsland units rows) := by
  have hdrop : (mkIslandGrid units rows ++ [List.replicate 3 ""]).drop (0 + 1) =
      units.map (fun u => [u, "", ""]) ++
        (["URL", "control name", "value"] :: (rows ++ [List.replicate 3 ""])) := by
    simp [mkIslandGrid, List.append_assoc]
  have hcell : getCell? (mkIslandGrid units rows ++ [List.replicate 3 ""]) 0 0 =
      some ISLAND_CORNER := by
    simp [mkIslandGrid, getCell?]
  have hheader : getIslandRow ["URL", "control name", "value"] 0 none =
      some { url := "URL", control := "control name", value := "value" } := by
    simp [getIslandRow]
  simp only [loadIsland, hcell, Option.some_bind]
  rw [if_pos trivial, hdrop, readUnits_mkGrid units (rows ++ [List.replicate 3 ""])]
  simp only [Option.some_bind, List.head?_cons, List.tail_cons, hheader]
  rw [if_pos (by simp)]
  rw [readData_eq_decodeRows rows none [] [] hrows (by intro p hp; cases hp)]
  simp [decodedIsland]

lemma mkIslandGrid_getLast (units : List String) (rows : List (List String))
    (hrows : ∀ r ∈ rows, r.length = 3) :
    ∃ lastRow, (mkIslandGrid units rows).getLast? = some lastRow ∧ lastRow.length = 3 := by
  rcases List.eq_nil_or_concat rows with hnil | ⟨rs, r, rfl⟩
  · subst hnil
    refine ⟨["URL", "control name", "value"], ?_, rfl⟩
    rw [mkIslandGrid]
    rw [show (([ISLAND_CORNER, "", ""] :: (units.map (fun u => [u, "", ""]) ++
        [["URL", "control name", "value"]])) : List (List String)) =
      (([ISLAND_CORNER, "", ""] :: units.map (fun u => [u, "", ""])) ++
        [["URL", "control name", "value"]]) from by simp]
    exact List.getLast?_concat _
  · simp only [List.concat_eq_append] at hrows ⊢
    refine ⟨r, ?_, hrows r (by simp)⟩
    rw [mkIslandGrid]
    rw [show (([ISLAND_CORNER, "", ""] :: (units.map (fun u => [u, "", ""]) ++
        (["URL", "control name", "value"] :: (rs ++ [r])))) : List (List String)) =
      (([ISLAND_CORNER, "", ""] :: (units.map (fun u => [u, "", ""]) ++
        (["URL", "control name", "value"] :: rs))) ++ [r]) from by simp]
    exact List.getLast?_concat _

lemma readIslands_mkGrid (units : List String) (rows : List (List String))
    (hu : ∀ u ∈ units, u ≠ ISLAND_CORNER)
    (hrows : ∀ r ∈ rows, r.length = 3 ∧ (∀ c ∈ r, c ≠ ISLAND_CORNER) ∧ r.getD 1 "" ≠ "") :
    readIslands (mkIslandGrid units rows) =
      some ([decodedIsland units rows],
        mkIslandGrid units rows ++ [List.replicate 3 ""]) := by
  obtain ⟨lastRow, hlast, hlen⟩ :=
    mkIslandGrid_getLast units rows (fun r hr => (hrows r hr).1)
  have hrows2 : ∀ r ∈ rows, r.length = 3 ∧ r.getD 1 "" ≠ "" ∧
      r.getD 0 "" ≠ ISLAND_CORNER := by
    intro r hr
    obtain ⟨h1, h2, h3⟩ := hrows r hr
    refine ⟨h1, h3, ?_⟩
    obtain ⟨a, b, c, rfl⟩ := exists_three r h1
    simpa using h2 a (by simp)
  simp only [readIslands, hlast, Option.some_bind, hlen]
  rw [cornerPositions_mkGrid units rows hu (fun r hr => (hrows r hr).2.1)]
  simp only [loadIslands, loadIsland_mkGrid units rows hrows2, Option.some_bind]

lemma decodeRows_length (rows : List (List String)) :
    ∀ prev, (decodeRows 0 prev rows).length = rows.length := by
  induction rows with
  | nil => intro prev; rfl
  | cons r rest ih => intro prev; simp [decodeRows, ih]

lemma decodeRows_filter_length (rows : List (List String)) :
    ∀ prev, ((decodeRows 0 prev rows).filter (fun r => !startsWithHash r.control)).length =
      (rows.filter (fun r => !startsWithHash (r.getD 1 ""))).length := by
  induction rows with
  | nil => intro prev; rfl
  | cons r rest ih =>
    intro prev
    simp only [decodeRows]
    by_cases hcm : startsWithHash (r.getD (0 + 1) "") = true
    · rw [List.filter_cons, List.filter_cons]
      simp only [List.getD_eq_getElem?_getD] at hcm
      simp [hcm, ih]
    · rw [List.filter_cons, List.filter_cons]
      simp only [List.getD_eq_getElem?_getD] at hcm
      simp [hcm, ih]

lemma decodeRows_getD_control (rows : List (List String)) :
    ∀ prev i, i < rows.length →
      ((decodeRows 0 prev rows).getD i ⟨"", "", ""⟩).control = (rows.getD i []).getD 1 "" := by
  induction rows with
  | nil => intro prev i hi; simp at hi
  | cons r rest ih =>
    intro prev i hi
    cases i with
    | zero => simp [decodeRows]
    | succ j =>
      simp only [decodeRows, List.getD_cons_succ]
      exact ih _ j (by simpa using hi)

lemma decodeRows_getD_value (rows : List (List String)) :
    ∀ prev i, i < rows.length →
      ((decodeRows 0 prev rows).getD i ⟨"", "", ""⟩).value = (rows.getD i []).getD 2 "" := by
  induction rows with
  | nil => intro prev i hi; simp at hi
  | cons r rest ih =>
    intro prev i hi
    cases i with
    | zero => simp [decodeRows]
    | succ j =>
      simp only [decodeRows, List.getD_cons_succ]
      exact ih _ j (by simpa using hi)

lemma decodeRows_getD_url_blank (rows : List (List String)) :
    ∀ prev i, i + 1 < rows.length → (rows.getD (i + 1) []).getD 0 "" = "" →
      ((decodeRows 0 prev rows).getD (i + 1) ⟨"", "", ""⟩).url =
        ((decodeRows 0 prev rows).getD i ⟨"", "", ""⟩).url := by
  induction rows with
  | nil => intro prev i hi; simp at hi
  | cons r rest ih =>
    intro prev i hi hblank
    cases i with
    | zero =>
      cases rest with
      | nil => simp at hi
      | cons r2 rest2 =>
        simp at hblank
        simp [decodeRows, hblank]
    | succ j =>
      simp only [decodeRows, List.getD_cons_succ]
      exact ih _ j (by simpa using hi) (by simpa using hblank)

/-! ### addToUrls / bucket lemmas -/

lemma mem_addToUrls (urls : List (String × List Row)) (r : Row) :
    ∀ kv ∈ addToUrls urls r, ∀ x ∈ kv.2, (∃ kv0 ∈ urls, x ∈ kv0.2) ∨ x = r := by
  induction urls with
  | nil =>
    intro kv hkv x hx
    simp only [addToUrls, List.mem_singleton] at hkv
    subst hkv
    simp only [List.mem_singleton] at hx
    exact Or.inr hx
  | cons p rest ih =>
    intro kv hkv x hx
    obtain ⟨k, rs⟩ := p
    rw [addToUrls] at hkv
    by_cases hk : k = r.url
    · rw [if_pos hk] at hkv
      rcases List.mem_cons.mp hkv with rfl | h2
      · rcases List.mem_append.mp hx with h3 | h3
        · exact Or.inl ⟨(k, rs), List.mem_cons_self _ _, h3⟩
        · exact Or.inr (by simpa using h3)
      · exact Or.inl ⟨kv, List.mem_cons_of_mem _ h2, hx⟩
    · rw [if_neg hk] at hkv
      rcases List.mem_cons.mp hkv with rfl | h2
      · exact Or.inl ⟨(k, rs), List.mem_cons_self _ _, hx⟩
      · rcases ih kv h2 x hx with ⟨kv0, hkv0, hx0⟩ | h3
        · exact Or.inl ⟨kv0, List.mem_cons_of_mem _ hkv0, hx0⟩
        · exact Or.inr h3

lemma mem_foldl_addToUrls (rs : List Row) :
    ∀ (urls : List (String × List Row)) kv, kv ∈ rs.foldl addToUrls urls →
      ∀ x ∈ kv.2, (∃ kv0 ∈ urls, x ∈ kv0.2) ∨ x ∈ rs := by
  induction rs with
  | nil =>
    intro urls kv hkv x hx
    exact Or.inl ⟨kv, hkv, hx⟩
  | cons r rest ih =>
    intro urls kv hkv x hx
    rw [List.foldl_cons] at hkv
    rcases ih (addToUrls urls r) kv hkv x hx with h1 | h1
    · obtain ⟨kv0, hkv0, hx0⟩ := h1
      rcases mem_addToUrls urls r kv0 hkv0 x hx0 with h2 | h2
      · exact Or.inl h2
      · exact Or.inr (by simp [h2])
    · exact Or.inr (by simp [h1])

lemma addToUrls_self (urls : List (String × List Row)) (r : Row) :
    ∃ kv ∈ addToUrls urls r, kv.1 = r.url ∧ r ∈ kv.2 := by
  induction urls with
  | nil => exact ⟨(r.url, [r]), by simp [addToUrls], rfl, by simp⟩
  | cons p rest ih =>
    obtain ⟨k, rs⟩ := p
    rw [addToUrls]
    by_cases hk : k = r.url
    · rw [if_pos hk]
      exact ⟨(k, rs ++ [r]), List.mem_cons_self _ _, hk, by simp⟩
    · rw [if_neg hk]
      obtain ⟨kv, hkv, hk1, hr⟩ := ih
      exact ⟨kv, List.mem_cons_of_mem _ hkv, hk1, hr⟩

lemma addToUrls_preserve (urls : List (String × List Row)) (r : Row) (kv) (x : Row)
    (hkv : kv ∈ urls) (hx : x ∈ kv.2) :
    ∃ kv2 ∈ addToUrls urls r, kv2.1 = kv.1 ∧ x ∈ kv2.2 := by
  induction urls with
  | nil => cases hkv
  | cons p rest ih =>
    obtain ⟨k, rs⟩ := p
    rw [addToUrls]
    by_cases hk : k = r.url
    · rw [if_pos hk]
      rcases List.mem_cons.mp hkv with rfl | h2
      · exact ⟨(k, rs ++ [r]), List.mem_cons_self _ _, rfl, by simp [hx]⟩
      · exact ⟨kv, List.mem_cons_of_mem _ h2, rfl, hx⟩
    · rw [if_neg hk]
      rcases List.mem_cons.mp hkv with rfl | h2
      · exact ⟨(k, rs), List.mem_cons_self _ _, rfl, hx⟩
      · obtain ⟨kv2, hkv2, he, hx2⟩ := ih h2
        exact ⟨kv2, List.mem_cons_of_mem _ hkv2, he, hx2⟩

lemma foldl_addToUrls_preserve (rs : List Row) :
    ∀ (urls : List (String × List Row)) kv (x : Row), kv ∈ urls → x ∈ kv.2 →
      ∃ kv2 ∈ rs.foldl addToUrls urls, kv2.1 = kv.1 ∧ x ∈ kv2.2 := by
  induction rs with
  | nil => intro urls kv x hkv hx; exact ⟨kv, hkv, rfl, hx⟩
  | cons r rest ih =>
    intro urls kv x hkv hx
    rw [List.foldl_cons]
    obtain ⟨kv2, hkv2, he, hx2⟩ := addToUrls_preserve urls r kv x hkv hx
    obtain ⟨kv3, hkv3, he3, hx3⟩ := ih (addToUrls urls r) kv2 x hkv2 hx2
    exact ⟨kv3, hkv3, he3.trans he, hx3⟩

lemma foldl_addToUrls_self_mem (rs : List Row) :
    ∀ (urls : List (String × List Row)) (x : Row), x ∈ rs →
      ∃ kv ∈ rs.foldl addToUrls urls, kv.1 = x.url ∧ x ∈ kv.2 := by
  induction rs with
  | nil => intro urls x hx; cases hx
  | cons r rest ih =>
    intro urls x hx
    rw [List.foldl_cons]
    rcases List.mem_cons.mp hx with rfl | h2
    · obtain ⟨kv, hkv, he, hr⟩ := addToUrls_self urls x
      exact foldl_addToUrls_preserve rest (addToUrls urls x) kv x hkv hr |>.imp
        (fun kv2 h => ⟨h.1, h.2.1.trans he, h.2.2⟩)
    · exact ih (addToUrls urls r) x h2

lemma addToUrls_key_inv (urls : List (String × List Row)) (r : Row)
    (h : ∀ kv ∈ urls, ∀ x ∈ kv.2, x.url = kv.1) :
    ∀ kv ∈ addToUrls urls r, ∀ x ∈ kv.2, x.url = kv.1 := by
  induction urls with
  | nil =>
    intro kv hkv x hx
    simp only [addToUrls, List.mem_singleton] at hkv
    subst hkv
    simp only [List.mem_singleton] at hx
    subst hx
    rfl
  | cons p rest ih =>
    intro kv hkv x hx
    obtain ⟨k, rs⟩ := p
    rw [addToUrls] at hkv
    by_cases hk : k = r.url
    · rw [if_pos hk] at hkv
      rcases List.mem_cons.mp hkv with rfl | h2
      · rcases List.mem_append.mp hx with h3 | h3
        · exact h (k, rs) (List.mem_cons_self _ _) x h3
        · have : x = r := by simpa using h3
          subst this
          exact hk.symm
      · exact h kv (List.mem_cons_of_mem _ h2) x hx
    · rw [if_neg hk] at hkv
      rcases List.mem_cons.mp hkv with rfl | h2
      · exact h (k, rs) (List.mem_cons_self _ _) x hx
      · exact ih (fun kv2 hkv2 => h kv2 (List.mem_cons_of_mem _ hkv2)) kv h2 x hx

lemma foldl_addToUrls_key_inv (rs : List Row) :
    ∀ (urls : List (String × List Row)),
      (∀ kv ∈ urls, ∀ x ∈ kv.2, x.url = kv.1) →
      ∀ kv ∈ rs.foldl addToUrls urls, ∀ x ∈ kv.2, x.url = kv.1 := by
  induction rs with
  | nil => intro urls h; exact h
  | cons r rest ih =>
    intro urls h
    rw [List.foldl_cons]
    exact ih (addToUrls urls r) (addToUrls_key_inv urls r h)

lemma addToUrls_keys (urls : List (String × List Row)) (r : Row) :
    (addToUrls urls r).map Prod.fst =
      if r.url ∈ urls.map Prod.fst then urls.map Prod.fst
      else urls.map Prod.fst ++ [r.url] := by
  induction urls with
  | nil => simp [addToUrls]
  | cons p rest ih =>
    obtain ⟨k, rs⟩ := p
    rw [addToUrls]
    by_cases hk : k = r.url
    · rw [if_pos hk]
      simp [hk]
    · rw [if_neg hk]
      simp only [List.map_cons]
      rw [ih]
      have hne : ¬ r.url = k := fun he => hk he.symm
      by_cases hmem : r.url ∈ rest.map Prod.fst
      · simp [hmem, hne]
      · simp [hmem, hne]

lemma foldl_addToUrls_keys (rs : List Row) :
    ∀ (urls : List (String × List Row)),
      (rs.foldl addToUrls urls).map Prod.fst =
        (rs.map Row.url).foldl
          (fun acc u => if u ∈ acc then acc else acc ++ [u]) (urls.map Prod.fst) := by
  induction rs with
  | nil => intro urls; rfl
  | cons r rest ih =>
    intro urls
    rw [List.foldl_cons, List.map_cons, List.foldl_cons, ih, addToUrls_keys]

/-! ### Claim theorems: decoder -/

/-- C1: a grid holding exactly one well-formed island decodes to exactly one
Island; its flat row list (data) has one entry per non-comment data row of
the block, and no comment row (control cell starting with '#') appears in
the flat list or in any url bucket. -/
theorem readIslands_single_island_row_count (units : List String)
    (rows : List (List String))
    (hu : ∀ u ∈ units, u ≠ ISLAND_CORNER)
    (hrows : ∀ r ∈ rows, r.length = 3 ∧ (∀ c ∈ r, c ≠ ISLAND_CORNER) ∧ r.getD 1 "" ≠ "") :
    ∃ island grown, readIslands (mkIslandGrid units rows) = some ([island], grown) ∧
      island.data.length = (rows.filter (fun r => !startsWithHash (r.getD 1 ""))).length ∧
      (∀ row ∈ island.data, startsWithHash row.control = false) ∧
      (∀ kv ∈ island.urls, ∀ row ∈ kv.2, startsWithHash row.control = false) := by
  refine ⟨decodedIsland units rows, _, readIslands_mkGrid units rows hu hrows, ?_, ?_, ?_⟩
  · simp only [decodedIsland]
    exact decodeRows_filter_length rows none
  · intro row hrow
    simp only [decodedIsland] at hrow
    have := List.of_mem_filter hrow
    simpa using this
  · intro kv hkv row hrow
    simp only [decodedIsland] at hkv
    rcases mem_foldl_addToUrls _ [] kv hkv row hrow with ⟨kv0, h0, _⟩ | h1
    · cases h0
    · have := List.of_mem_filter h1
      simpa using this

theorem readIslands_single_island_row_count_witness :
    (∀ u ∈ ["192.168.1.5"], u ≠ ISLAND_CORNER) ∧
    (∀ r ∈ [["/config", "c1", "v1"], ["", "#note", "x"], ["", "c2", "v2"]],
      r.length = 3 ∧ (∀ c ∈ r, c ≠ ISLAND_CORNER) ∧ r.getD 1 "" ≠ "") ∧
    (∃ island grown,
      readIslands (mkIslandGrid ["192.168.1.5"]
        [["/config", "c1", "v1"], ["", "#note", "x"], ["", "c2", "v2"]]) =
          some ([island], grown) ∧
      island.data.length = ([["/config", "c1", "v1"], ["", "#note", "x"],
        ["", "c2", "v2"]].filter (fun r => !startsWithHash (r.getD 1 ""))).length ∧
      (∀ row ∈ island.data, startsWithHash row.control = false) ∧
      (∀ kv ∈ island.urls, ∀ row ∈ kv.2, startsWithHash row.control = false)) :=
  ⟨by decide, by decide,
    readIslands_single_island_row_count _ _ (by decide) (by decide)⟩

/-- C2: a decoded data row whose raw url cell is blank takes the url of the
nearest preceding row of the block (comment rows included as carry-forward
sources), while the control and value fields always come from the row's own
cells; island.data is the comment-filtered list of the decoded rows. -/
theorem loadIsland_url_forward_fill (units : List String) (rows : List (List String))
    (hu : ∀ u ∈ units, u ≠ ISLAND_CORNER)
    (hrows : ∀ r ∈ rows, r.length = 3 ∧ (∀ c ∈ r, c ≠ ISLAND_CORNER) ∧ r.getD 1 "" ≠ "")
    (i : Nat) (hi : i + 1 < rows.length)
    (hblank : (rows.getD (i + 1) []).getD 0 "" = "") :
    ∃ island grown, readIslands (mkIslandGrid units rows) = some ([island], grown) ∧
      island.data = (decodeRows 0 none rows).filter (fun r => !startsWithHash r.control) ∧
      ((decodeRows 0 none rows).getD (i + 1) ⟨"", "", ""⟩).url =
        ((decodeRows 0 none rows).getD i ⟨"", "", ""⟩).url ∧
      ((decodeRows 0 none rows).getD (i + 1) ⟨"", "", ""⟩).control =
        (rows.getD (i + 1) []).getD 1 "" ∧
      ((decodeRows 0 none rows).getD (i + 1) ⟨"", "", ""⟩).value =
        (rows.getD (i + 1) []).getD 2 "" := by
  refine ⟨decodedIsland units rows, _, readIslands_mkGrid units rows hu hrows,
    rfl, ?_, ?_, ?_⟩
  · exact decodeRows_getD_url_blank rows none i hi hblank
  · exact decodeRows_getD_control rows none (i + 1) hi
  · exact decodeRows_getD_value rows none (i + 1) hi

theorem loadIsland_url_forward_fill_witness :
    (∀ u ∈ ([] : List String), u ≠ ISLAND_CORNER) ∧
    (∀ r ∈ [["/a", "#c", "x"], ["", "c1", "v"]],
      r.length = 3 ∧ (∀ c ∈ r, c ≠ ISLAND_CORNER) ∧ r.getD 1 "" ≠ "") ∧
    0 + 1 < ([["/a", "#c", "x"], ["", "c1", "v"]] : List (List String)).length ∧
    (([["/a", "#c", "x"], ["", "c1", "v"]].getD (0 + 1) []).getD 0 "" = "") ∧
    (∃ island grown,
      readIslands (mkIslandGrid [] [["/a", "#c", "x"], ["", "c1", "v"]]) =
        some ([island], grown) ∧
      island.data = (decodeRows 0 none [["/a", "#c", "x"], ["", "c1", "v"]]).filter
        (fun r => !startsWithHash r.control) ∧
      ((decodeRows 0 none [["/a", "#c", "x"], ["", "c1", "v"]]).getD (0 + 1)
          ⟨"", "", ""⟩).url =
        ((decodeRows 0 none [["/a", "#c", "x"], ["", "c1", "v"]]).getD 0
          ⟨"", "", ""⟩).url ∧
      ((decodeRows 0 none [["/a", "#c", "x"], ["", "c1", "v"]]).getD (0 + 1)
          ⟨"", "", ""⟩).control =
        ([["/a", "#c", "x"], ["", "c1", "v"]].getD (0 + 1) []).getD 1 "" ∧
      ((decodeRows 0 none [["/a", "#c", "x"], ["", "c1", "v"]]).getD (0 + 1)
          ⟨"", "", ""⟩).value =
        ([["/a", "#c", "x"], ["", "c1", "v"]].getD (0 + 1) []).getD 2 "") :=
  ⟨by decide, by decide, by decide, by decide,
    loadIsland_url_forward_fill _ _ (by decide) (by decide) 0 (by decide) (by decide)⟩

/-- C3: every Row of island.data lies in exactly the bucket of island.urls
keyed by its url (rows in a bucket always carry the bucket's key), and the
bucket keys appear in first-occurrence order of the urls of the non-comment
data rows. -/
theorem island_rowsByURL_buckets (units : List String) (rows : List (List String))
    (hu : ∀ u ∈ units, u ≠ ISLAND_CORNER)
    (hrows : ∀ r ∈ rows, r.length = 3 ∧ (∀ c ∈ r, c ≠ ISLAND_CORNER) ∧ r.getD 1 "" ≠ "") :
    ∃ island grown, readIslands (mkIslandGrid units rows) = some ([island], grown) ∧
      (∀ row ∈ island.data, ∃ kv ∈ island.urls, kv.1 = row.url ∧ row ∈ kv.2) ∧
      (∀ kv ∈ island.urls, ∀ row ∈ kv.2, row.url = kv.1) ∧
      island.urls.map Prod.fst = firstOcc (island.data.map Row.url) := by
  refine ⟨decodedIsland units rows, _, readIslands_mkGrid units rows hu hrows,
    ?_, ?_, ?_⟩
  · intro row hrow
    simp only [decodedIsland] at hrow ⊢
    exact foldl_addToUrls_self_mem _ [] row hrow
  · intro kv hkv row hrow
    simp only [decodedIsland] at hkv
    exact foldl_addToUrls_key_inv _ [] (by intro kv2 h; cases h) kv hkv row hrow
  · simp only [decodedIsland]
    have h := foldl_addToUrls_keys
      ((decodeRows 0 none rows).filter (fun r => !startsWithHash r.control)) []
    simpa [firstOcc] using h

theorem island_rowsByURL_buckets_witness :
    (∀ u ∈ ["10.0.0.9"], u ≠ ISLAND_CORNER) ∧
    (∀ r ∈ [["/b", "x", "1"], ["/a", "y", "2"], ["/b", "z", "3"]],
      r.length = 3 ∧ (∀ c ∈ r, c ≠ ISLAND_CORNER) ∧ r.getD 1 "" ≠ "") ∧
    (∃ island grown,
      readIslands (mkIslandGrid ["10.0.0.9"]
        [["/b", "x", "1"], ["/a", "y", "2"], ["/b", "z", "3"]]) =
          some ([island], grown) ∧
      (∀ row ∈ island.data, ∃ kv ∈ island.urls, kv.1 = row.url ∧ row ∈ kv.2) ∧
      (∀ kv ∈ island.urls, ∀ row ∈ kv.2, row.url = kv.1) ∧
      island.urls.map Prod.fst = firstOcc (island.data.map Row.url)) :=
  ⟨by decide, by decide, island_rowsByURL_buckets _ _ (by decide) (by decide)⟩

/-- C9 counterexample: decoding is not frame-preserving on the grid.  On the
one-row grid [["x"]] the decode pass leaves the grid state grown by one
synthetic blank row, so the post-state differs from the input grid (two
rows instead of one). -/
theorem readIslands_mutates_grid_counterexample :
    readIslands [["x"]] = some ([], [["x"], [""]]) ∧
      ([["x"], [""]] : List (List String)) ≠ [["x"]] := by
  constructor
  · rfl
  · decide

/-- C9 amended: a decode pass leaves every pre-existing row of the grid
unchanged but appends exactly one synthetic blank row whose column count is
that of the last row, so the grid grows by exactly one row. -/
theorem readIslands_appends_blank_row (table : List (List String))
    (islands : List Island) (grown : List (List String))
    (h : readIslands table = some (islands, grown)) :
    ∃ lastRow, table.getLast? = some lastRow ∧
      grown = table ++ [List.replicate lastRow.length ""] ∧
      grown.length = table.length + 1 := by
  simp only [readIslands] at h
  cases hlast : table.getLast? with
  | none => rw [hlast] at h; cases h
  | some lastRow =>
    rw [hlast] at h
    simp only [Option.some_bind] at h
    cases hload : loadIslands (table ++ [List.replicate lastRow.length ""])
        (cornerPositions (table ++ [List.replicate lastRow.length ""])) with
    | none => rw [hload] at h; cases h
    | some isl2 =>
      rw [hload] at h
      simp only [Option.some_bind, Option.some.injEq, Prod.mk.injEq] at h
      refine ⟨lastRow, rfl, h.2.symm, ?_⟩
      rw [← h.2]
      simp

theorem readIslands_appends_blank_row_witness :
    readIslands [["a", "b"]] = some ([], [["a", "b"], ["", ""]]) ∧
      (∃ lastRow, ([["a", "b"]] : List (List String)).getLast? = some lastRow ∧
        ([["a", "b"], ["", ""]] : List (List String)) =
          [["a", "b"]] ++ [List.replicate lastRow.length ""] ∧
        ([["a", "b"], ["", ""]] : List (List String)).length =
          ([["a", "b"]] : List (List String)).length + 1) :=
  ⟨by decide,
    readIslands_appends_blank_row [["a", "b"]] [] [["a", "b"], ["", ""]] (by decide)⟩

/-! ### Exceptions and the Session interface -/

/-- Python exception classes raised by the modelled code paths. -/
inductive Exc where
  | lookupError
  | keyError (k : String)
  | valueError (msg : String)
  | systemExit (code : Nat)
deriving DecidableEq, Repr

/-- A remote form control as seen through the Session (zope.testbrowser):
its name and its remote-reported type string. -/
structure BrowserControl where
  name : String
  ctype : String
deriving DecidableEq, Repr

/-- A live page form: its list of controls. -/
structure Form where
  controls : List BrowserControl
deriving DecidableEq, Repr

/-- Modelled from the spec: the external Session's Form.getControl(name);
a control absent from the live form raises a LookupError (the fault class
the source's own tolerant-button path catches at main.py line 303). -/
def getControl (form : Form) (name : String) : Except Exc BrowserControl :=
  match form.controls.find? (fun c => c.name == name) with
  | some c => Except.ok c
  | none => Except.error Exc.lookupError

/-! ### Control adapters -/

/-- The adapter kinds of CTRL_MAPPING. -/
inductive ControlKind where
  | textBox
  | password
  | combo
  | checkBox
  | hiddenControl
deriving DecidableEq, Repr

/-- CTRL_MAPPING: remote-reported type string -> adapter class; a missing
key is a KeyError (fatal). -/
def CTRL_MAPPING : List (String × ControlKind) :=
  [("text", ControlKind.textBox), ("search", ControlKind.textBox),
   ("number", ControlKind.textBox), ("textarea", ControlKind.textBox),
   ("password", ControlKind.password), ("select", ControlKind.combo),
   ("checkbox", ControlKind.checkBox), ("hidden", ControlKind.hiddenControl)]

/-- The state of a single-select combo control as exposed by the Session:
underlying option values, display option labels, and the currently selected
value/display label (lists, as zope exposes multi-valued selection). -/
structure SelectControl where
  name : String
  options : List String
  displayOptions : List String
  value : List String
  displayValue : List String
deriving DecidableEq, Repr

namespace Combo

/-- Combo.read: self.browserControl.value[0]; an empty selection is an
IndexError (none). -/
def read (c : SelectControl) : Option String := c.value.head?

/-- Combo.write: set the underlying value when the desired value is an
option value, else set the display label when it is a display label, else
raise ValueError. -/
def write (c : SelectControl) (v : String) : Except Exc SelectControl :=
  if v ∈ c.options then Except.ok { c with value := [v] }
  else if v ∈ c.displayOptions then Except.ok { c with displayValue := [v] }
  else Except.error (Exc.valueError (v ++ " not found in " ++ c.name))

/-- Combo.changed: compare against the selected display label when the
desired value is a display label, else against the selected underlying
value (read()); indexing an empty selection is an IndexError (none). -/
def changed (c : SelectControl) (newValue : String) : Option Bool :=
  if newValue ∈ c.displayOptions then
    c.displayValue.head?.map (fun prev => prev != newValue)
  else
    (read c).map (fun prev => prev != newValue)

end Combo

/-- C4: Combo.changed compares against the selected display label exactly
when the desired value is one of the display option labels, otherwise
against the selected underlying option value; and a desired value matching
neither the options nor the display options makes changed report true (the
current selection is an option value, hence differs) and makes write fail
with a ValueError. -/
theorem combo_changed_value_resolution (c : SelectControl) (v cur : String)
    (hcur : c.value.head? = some cur) (hmem : cur ∈ c.options) :
    (v ∈ c.displayOptions →
      Combo.changed c v = c.displayValue.head?.map (fun prev => prev != v)) ∧
    (v ∉ c.displayOptions → Combo.changed c v = some (cur != v)) ∧
    (v ∉ c.options → v ∉ c.displayOptions →
      Combo.changed c v = some true ∧
      Combo.write c v = Except.error (Exc.valueError (v ++ " not found in " ++ c.name))) := by
  refine ⟨?_, ?_, ?_⟩
  · intro hd
    rw [Combo.changed, if_pos hd]
  · intro hd
    rw [Combo.changed, if_neg hd, Combo.read, hcur]
    rfl
  · intro ho hd
    have hne : cur ≠ v := fun he => ho (he ▸ hmem)
    constructor
    · rw [Combo.changed, if_neg hd, Combo.read, hcur]
      simp [hne]
    · rw [Combo.write, if_neg ho, if_neg hd]

/-- A concrete single-select control used to instantiate the Combo claim. -/
def comboSample : SelectControl :=
  { name := "sel1", options := ["a", "b"], displayOptions := ["Alpha", "Beta"],
    value := ["a"], displayValue := ["Alpha"] }

theorem combo_changed_value_resolution_witness :
    comboSample.value.head? = some "a" ∧
    "a" ∈ comboSample.options ∧
    Combo.changed comboSample "zzz" = some true ∧
    Combo.write comboSample "zzz" =
      Except.error (Exc.valueError ("zzz" ++ " not found in " ++ "sel1")) :=
  ⟨rfl, by decide,
    ((combo_changed_value_resolution comboSample "zzz" "a" rfl (by decide)).2.2
      (by decide) (by decide)).1,
    ((combo_changed_value_resolution comboSample "zzz" "a" rfl (by decide)).2.2
      (by decide) (by decide)).2⟩

/-! ### Processor row dispatch (processUnit, main.py lines 284-334) -/

/-- The action decided for one row by the directive/control dispatch of
Processor.processUnit, up to the point where an ordinary control has been
located and wrapped. -/
inductive RowAction where
  | submitNow
  | submitIfChanged
  | clickSkipped (name : String)
  | clickDryRun (name : String)
  | clicked (name : String)
  | ordinary (kind : ControlKind) (c : BrowserControl)
deriving DecidableEq, Repr

/-- The per-row dispatch of Processor.processUnit: the '!submit?' and
'!submit' directives, '!name' / '!name?' button clicks (a missing button
raises LookupError unless the tolerant '?' suffix was given), and otherwise
an ordinary control lookup followed by the CTRL_MAPPING dispatch.  The
source wraps the ordinary lookup in `except NotImplementedError` only; the
Session raises LookupError for a missing control, so that error
propagates. -/
def dispatchRow (dryRun : Bool) (form : Form) (control : String) : Except Exc RowAction :=
  if control = "!submit?" then Except.ok RowAction.submitIfChanged
  else if control = "!submit" then Except.ok RowAction.submitNow
  else if strHead? control == some '!' then
    let name0 := strTail control
    let forgiving := strLast? name0 == some '?'
    let name := if forgiving then strDropLast name0 else name0
    match getControl form name with
    | Except.error Exc.lookupError =>
      if forgiving then Except.ok (RowAction.clickSkipped name)
      else Except.error Exc.lookupError
    | Except.error e => Except.error e
    | Except.ok c =>
      if dryRun then Except.ok (RowAction.clickDryRun name)
      else Except.ok (RowAction.clicked c.name)
  else
    match getControl form control with
    | Except.ok c =>
      match CTRL_MAPPING.find? (fun kv => kv.1 == c.ctype) with
      | some kv => Except.ok (RowAction.ordinary kv.2 c)
      | none => Except.error (Exc.keyError c.ctype)
    | Except.error e => Except.error e

/-- C5: an ordinary (non-directive) row naming a control absent from the
live form is a fatal lookup fault (the error propagates), while a
'?'-suffixed button directive whose button is absent is skipped
silently. -/
theorem missing_control_fatal_vs_tolerant (dryRun : Bool) (form : Form)
    (s sBtn : String)
    (hord : strHead? s ≠ some '!')
    (hmiss : ∀ c ∈ form.controls, c.name ≠ s)
    (hbtn : strHead? sBtn = some '!')
    (hbtnq : strLast? (strTail sBtn) = some '?')
    (hbtn1 : sBtn ≠ "!submit?") (hbtn2 : sBtn ≠ "!submit")
    (hbtnMiss : ∀ c ∈ form.controls, c.name ≠ strDropLast (strTail sBtn)) :
    dispatchRow dryRun form s = Except.error Exc.lookupError ∧
    dispatchRow dryRun form sBtn =
      Except.ok (RowAction.clickSkipped (strDropLast (strTail sBtn))) := by
  have hfind : ∀ t : String, (∀ c ∈ form.controls, c.name ≠ t) →
      form.controls.find? (fun c => c.name == t) = none := by
    intro t ht
    rw [List.find?_eq_none]
    intro c hc
    simpa using ht c hc
  constructor
  · have hs1 : s ≠ "!submit?" := by
      intro he
      subst he
      exact hord rfl
    have hs2 : s ≠ "!submit" := by
      intro he
      subst he
      exact hord rfl
    rw [dispatchRow, if_neg hs1, if_neg hs2,
      if_neg (by simpa using hord)]
    rw [getControl, hfind s hmiss]
  · rw [dispatchRow, if_neg hbtn1, if_neg hbtn2,
      if_pos (by simpa using hbtn)]
    simp only [hbtnq]
    rw [getControl, hfind _ (by simpa [hbtnq] using hbtnMiss)]
    simp [hbtnq]

theorem missing_control_fatal_vs_tolerant_witness :
    strHead? "TDID" ≠ some '!' ∧
    (∀ c ∈ (Form.mk [BrowserControl.mk "power" "checkbox"]).controls,
      c.name ≠ "TDID") ∧
    strHead? "!factoryreset?" = some '!' ∧
    strLast? (strTail "!factoryreset?") = some '?' ∧
    "!factoryreset?" ≠ "!submit?" ∧ "!factoryreset?" ≠ "!submit" ∧
    (∀ c ∈ (Form.mk [BrowserControl.mk "power" "checkbox"]).controls,
      c.name ≠ strDropLast (strTail "!factoryreset?")) ∧
    (dispatchRow false (Form.mk [BrowserControl.mk "power" "checkbox"]) "TDID" =
      Except.error Exc.lookupError ∧
    dispatchRow false (Form.mk [BrowserControl.mk "power" "checkbox"])
        "!factoryreset?" =
      Except.ok (RowAction.clickSkipped (strDropLast (strTail "!factoryreset?")))) :=
  ⟨by decide, by decide, by decide, by decide, by decide, by decide, by decide,
    missing_control_fatal_vs_tolerant false _ "TDID" "!factoryreset?"
      (by decide) (by decide) (by decide) (by decide) (by decide) (by decide)
      (by decide)⟩

/-! ### Processor precheck (main.py lines 356-377) -/

/-- The Processor state relevant to precheck: flags and the optional
name -> address alias map loaded from the units file. -/
structure ProcessorState where
  dryRun : Bool
  failFast : Bool
  name2ip : List (String × String)
deriving DecidableEq, Repr

/-- The unit-collection loop of precheck: every unit of every island,
skipping units that do not match a given host filter (a Python set is
built; the list collected here is deduplicated below). -/
def collectUnits (islands : List Island) (host : Option String) : List String :=
  islands.foldl (fun acc island =>
    acc ++ island.units.filter (fun u =>
      match host with
      | none => true
      | some h => u == h)) []

/-- sorted(units) on the collected set: deduplicate, then sort. -/
def precheckUnits (islands : List Island) (host : Option String) : List String :=
  List.insertionSort (fun a b => a ≤ b) (collectUnits islands host).dedup

/-- Processor.precheck: open every distinct unit's root address in sorted
order (opens abstracts the Session's browser.open; false = the open raised
URLError/OSError), record the failures, then raise SystemExit(1) whenever
failFast is set; without failFast the recorded failure list is the result
state (the source keeps it in a local and returns None). -/
def precheck (p : ProcessorState) (islands : List Island) (host : Option String)
    (opens : String → Bool) : Except Exc (List String) :=
  let failed := (precheckUnits islands host).foldl (fun failed unit =>
    let addr := (p.name2ip.lookup unit).getD unit
    if opens ("http://" ++ addr) then failed else failed ++ [addr]) []
  if p.failFast then Except.error (Exc.systemExit 1) else Except.ok failed

lemma mem_foldl_append {α β : Type} (f : β → List α) (l : List β) :
    ∀ (init : List α) (x : α),
      x ∈ l.foldl (fun acc b => acc ++ f b) init ↔ x ∈ init ∨ ∃ b ∈ l, x ∈ f b := by
  induction l with
  | nil => intro init x; simp
  | cons b rest ih =>
    intro init x
    rw [List.foldl_cons, ih]
    simp only [List.mem_append, List.mem_cons]
    constructor
    · rintro ((h | h) | ⟨b2, hb2, hx⟩)
      · exact Or.inl h
      · exact Or.inr ⟨b, Or.inl rfl, h⟩
      · exact Or.inr ⟨b2, Or.inr hb2, hx⟩
    · rintro (h | ⟨b2, rfl | hb2, hx⟩)
      · exact Or.inl (Or.inl h)
      · exact Or.inl (Or.inr hx)
      · exact Or.inr ⟨b2, hb2, hx⟩

lemma foldl_record_failures (g : String → String) (p : String → Bool)
    (l : List String) :
    ∀ init, l.foldl (fun acc u => if p (g u) then acc else acc ++ [g u]) init =
      init ++ ((l.map g).filter (fun a => !p a)) := by
  induction l with
  | nil => intro init; simp
  | cons u rest ih =>
    intro init
    rw [List.foldl_cons, ih, List.map_cons, List.filter_cons]
    by_cases hp : p (g u) = true
    · simp [hp]
    · simp only [Bool.not_eq_true] at hp
      simp [hp]

/-- C6: with failFast set, precheck aborts with SystemExit(1) for every
island list, host filter, alias map and connectivity outcome — also when
every open succeeds; without failFast it returns the recorded failures.
The probed unit list is the distinct, host-filtered unit set of all
islands in sorted order. -/
theorem precheck_failfast_unconditional_abort (dryRun : Bool)
    (name2ip : List (String × String)) (islands : List Island)
    (host : Option String) (opens : String → Bool) :
    precheck ⟨dryRun, true, name2ip⟩ islands host opens =
      Except.error (Exc.systemExit 1) ∧
    precheck ⟨dryRun, true, name2ip⟩ islands host (fun _ => true) =
      Except.error (Exc.systemExit 1) ∧
    precheck ⟨dryRun, false, name2ip⟩ islands host opens =
      Except.ok (((precheckUnits islands host).map
        (fun unit => (name2ip.lookup unit).getD unit)).filter
        (fun addr => !opens ("http://" ++ addr))) ∧
    List.Sorted (fun a b => a ≤ b) (precheckUnits islands host) ∧
    (precheckUnits islands host).Nodup ∧
    (∀ u, u ∈ precheckUnits islands host ↔
      ((host = none ∨ host = some u) ∧ ∃ isl ∈ islands, u ∈ isl.units)) := by
  refine ⟨by simp [precheck], by simp [precheck], ?_, ?_, ?_, ?_⟩
  · simp only [precheck]
    rw [foldl_record_failures (fun unit => (name2ip.lookup unit).getD unit)
      (fun addr => opens ("http://" ++ addr)) (precheckUnits islands host) []]
    simp
  · exact List.sorted_insertionSort _ _
  · exact (List.perm_insertionSort _ _).symm.nodup (List.nodup_dedup _)
  · intro u
    rw [precheckUnits, List.mem_insertionSort, List.mem_dedup, collectUnits,
      mem_foldl_append]
    simp only [List.not_mem_nil, false_or, List.mem_filter]
    constructor
    · rintro ⟨isl, hisl, hu, hpred⟩
      refine ⟨?_, isl, hisl, hu⟩
      cases host with
      | none => exact Or.inl rfl
      | some h =>
        right
        simp only at hpred
        have : u = h := by simpa using hpred
        rw [this]
    · rintro ⟨hh, isl, hisl, hu⟩
      refine ⟨isl, hisl, hu, ?_⟩
      cases host with
      | none => simp
      | some h =>
        rcases hh with h1 | h1
        · cases h1
        · simp only [Option.some.injEq] at h1
          simp [h1]

/-! ### Discovery engine (main.py Discovery) -/

/-- One entry of a status document's self-reported mesh node list. -/
structure MeshNode where
  name : String
  ip : String
deriving DecidableEq, Repr

/-- The decoded /json status document, restricted to the fields the
discovery engine reads: data["System"]["Unit Name"] and
data["WiFi"]["IP Address"] (none = the key chain is absent, so the Python
local stays unbound), and data["nodes"]. -/
structure StatusDoc where
  sysUnitName : Option String
  wifiIP : Option String
  nodes : List MeshNode
deriving DecidableEq, Repr

/-- Discovery._getUnitName: prefer data["System"]["Unit Name"] and fall
back to data["WiFi"]["IP Address"] when the former is falsy (empty);
dots are replaced by underscores.  A KeyError is caught and leaves the
local unbound, so a missing unit-name key (or a missing address key when
the fallback is needed) is an UnboundLocalError at the `or` expression,
modelled as none. -/
def getUnitName (data : StatusDoc) : Option String :=
  match data.sysUnitName with
  | none => none
  | some n =>
    if n = "" then
      match data.wifiIP with
      | none => none
      | some ip => some (replaceDots ip)
    else some (replaceDots n)

/-- Python dict insertion: overwrite in place when the key exists, else
append the new binding at the end (insertion order preserved). -/
def dictInsert (m : List (String × StatusDoc)) (k : String) (v : StatusDoc) :
    List (String × StatusDoc) :=
  if m.any (fun kv => kv.1 == k) then
    m.map (fun kv => if kv.1 == k then (k, v) else kv)
  else m ++ [(k, v)]

/-- Discovery.discoverUnitsInThread: probe every address of iplist with the
given timeout (probe abstracts worker's HTTP get + JSON decode; none = any
request/response/decoding failure, silently dropped) and drain the
collector into a name -> document dict; a document whose name derivation
faults poisons the drain (none).  The collector drain order is modelled as
the iplist order. -/
def discoverUnitsInThread (probe : String → Nat → Option StatusDoc)
    (iplist : List String) (timeout : Nat) : Option (List (String × StatusDoc)) :=
  iplist.foldl (fun acc ip =>
    acc.bind (fun m =>
      match probe ip timeout with
      | none => some m
      | some doc => (getUnitName doc).map (fun n => dictInsert m n doc)))
    (some [])

/-- The Phase-1 candidate list of discoverUnits: hosts .1 to .253 of the
/24 derived from the first three octets of the given address. -/
def phase1IPs (iprange : String) : List String :=
  let parts := iprange.splitOn "."
  let base := String.intercalate "." (parts.take 3)
  (List.range' 1 253).map (fun last => base ++ "." ++ toString last)

/-- The Phase-2 candidate list: every node address reported by a Phase-1
unit whose node name is not already a key of the Phase-1 dict. -/
def neighborIPs (units : List (String × StatusDoc)) : List String :=
  units.foldl (fun acc kv =>
    acc ++ (kv.2.nodes.filter (fun nd =>
      !(units.any (fun u => u.1 == nd.name)))).map MeshNode.ip) []

/-- Python units.update(extra): insert every binding of extra into units,
overwriting existing keys. -/
def mergeUnits (units extra : List (String × StatusDoc)) :
    List (String × StatusDoc) :=
  extra.foldl (fun m kv => dictInsert m kv.1 kv.2) units

/-- Discovery.discoverUnits: Phase 1 probes the /24 candidates with the
default timeout 1 (the timeout argument is not forwarded to this call),
Phase 2 probes the fresh neighbor addresses with timeout*3, and the result
is the Phase-1 dict updated with the Phase-2 dict. -/
def discoverUnits (probe : String → Nat → Option StatusDoc) (iprange : String)
    (timeout : Nat) : Option (List (String × StatusDoc)) :=
  (discoverUnitsInThread probe (phase1IPs iprange) 1).bind (fun units =>
    (discoverUnitsInThread probe (neighborIPs units) (timeout * 3)).bind
      (fun extra => some (mergeUnits units extra)))

/-! ### Discovery lemmas and claims -/

/-- C8 counterexample: a status document whose unit-name field is present
but empty (falsy) is keyed by the fallback address field, not by the
(present) unit-name field, refuting the claim that presence alone selects
the unit-name field. -/
theorem getUnitName_empty_name_counterexample :
    getUnitName { sysUnitName := some "", wifiIP := some "10.0.0.5", nodes := [] } =
      some "10_0_0_5" ∧
    some ("10_0_0_5" : String) ≠ some (replaceDots "") := by
  constructor
  · rfl
  · decide

/-- C8 amended: the derived unit name equals the unit-name field when that
field is present and non-empty (truthy), and falls back to the reported
address field when the unit-name field is present but empty; '.' becomes
'_' in both cases.  An absent unit-name key chain (or an absent address
key when the fallback is needed) is an UnboundLocalError fault, not a
fallback. -/
theorem getUnitName_prefers_nonempty_name (d : StatusDoc) :
    (∀ n, d.sysUnitName = some n → n ≠ "" →
      getUnitName d = some (replaceDots n)) ∧
    (∀ ip, d.sysUnitName = some "" → d.wifiIP = some ip →
      getUnitName d = some (replaceDots ip)) ∧
    (d.sysUnitName = none → getUnitName d = none) ∧
    (d.sysUnitName = some "" → d.wifiIP = none → getUnitName d = none) := by
  refine ⟨?_, ?_, ?_, ?_⟩
  · intro n hn hne
    rw [getUnitName, hn]
    simp [hne]
  · intro ip hn hip
    rw [getUnitName, hn, hip]
    simp
  · intro hn
    rw [getUnitName, hn]
  · intro hn hip
    rw [getUnitName, hn, hip]
    simp

/-- Concrete status document for the unit-name derivation claim. -/
def statusDocSample : StatusDoc :=
  { sysUnitName := some "kitchen.esp", wifiIP := some "10.0.0.7", nodes := [] }

theorem getUnitName_prefers_nonempty_name_witness :
    statusDocSample.sysUnitName = some "kitchen.esp" ∧
    ("kitchen.esp" : String) ≠ "" ∧
    getUnitName statusDocSample = some (replaceDots "kitchen.esp") :=
  ⟨rfl, by decide,
    (getUnitName_prefers_nonempty_name statusDocSample).1 "kitchen.esp" rfl
      (by decide)⟩

lemma any_key_eq (units : List (String × StatusDoc)) (k : String) :
    units.any (fun u => u.1 == k) = true ↔ k ∈ units.map Prod.fst := by
  rw [List.any_eq_true]
  constructor
  · rintro ⟨u, hu, he⟩
    exact List.mem_map.mpr ⟨u, hu, by simpa using he⟩
  · intro h
    obtain ⟨u, hu, he⟩ := List.mem_map.mp h
    exact ⟨u, hu, by simpa using he⟩

lemma mem_neighborIPs (units : List (String × StatusDoc)) (ip : String) :
    ip ∈ neighborIPs units ↔
      ∃ kv ∈ units, ∃ nd ∈ kv.2.nodes,
        nd.name ∉ units.map Prod.fst ∧ nd.ip = ip := by
  rw [neighborIPs, mem_foldl_append]
  simp only [List.not_mem_nil, false_or]
  constructor
  · rintro ⟨kv, hkv, hmem⟩
    obtain ⟨nd, hnd, rfl⟩ := List.mem_map.mp hmem
    obtain ⟨hnd2, hfresh⟩ := List.mem_filter.mp hnd
    refine ⟨kv, hkv, nd, hnd2, ?_, rfl⟩
    intro hk
    rw [Bool.not_eq_true', List.any_eq_false] at hfresh
    obtain ⟨u, hu, he⟩ := List.mem_map.mp hk
    have hfu := hfresh u hu
    simp only [beq_iff_eq] at hfu
    exact hfu he
  · rintro ⟨kv, hkv, nd, hnd, hfresh, rfl⟩
    refine ⟨kv, hkv, List.mem_map.mpr ⟨nd, ?_, rfl⟩⟩
    refine List.mem_filter.mpr ⟨hnd, ?_⟩
    rw [Bool.not_eq_true', List.any_eq_false]
    intro u hu
    simp only [beq_iff_eq]
    intro he
    exact hfresh (List.mem_map.mpr ⟨u, hu, he⟩)

lemma keys_dictInsert (m : List (String × StatusDoc)) (k : String) (v : StatusDoc) :
    (dictInsert m k v).map Prod.fst =
      if m.any (fun kv => kv.1 == k) then m.map Prod.fst
      else m.map Prod.fst ++ [k] := by
  rw [dictInsert]
  by_cases hk : m.any (fun kv => kv.1 == k) = true
  · rw [if_pos hk, if_pos hk, List.map_map]
    apply List.map_congr_left
    intro kv hkv
    by_cases h2 : kv.1 == k
    · simp only [Function.comp_apply, h2, if_pos]
      have : kv.1 = k := by simpa using h2
      simp [this]
    · have h3 : ¬ kv.1 = k := by simpa using h2
      simp [Function.comp_apply, h2, h3]
  · rw [if_neg hk, if_neg hk, List.map_append]
    rfl

lemma mem_keys_dictInsert_of (m : List (String × StatusDoc)) (k : String)
    (v : StatusDoc) (x : String) (h : x ∈ m.map Prod.fst) :
    x ∈ (dictInsert m k v).map Prod.fst := by
  rw [keys_dictInsert]
  by_cases hk : m.any (fun kv => kv.1 == k) = true
  · rwa [if_pos hk]
  · rw [if_neg hk]
    exact List.mem_append_left _ h

lemma self_mem_keys_dictInsert (m : List (String × StatusDoc)) (k : String)
    (v : StatusDoc) : k ∈ (dictInsert m k v).map Prod.fst := by
  rw [keys_dictInsert]
  by_cases hk : m.any (fun kv => kv.1 == k) = true
  · rw [if_pos hk]
    exact (any_key_eq m k).mp hk
  · rw [if_neg hk]
    exact List.mem_append_right _ (by simp)

lemma mem_keys_mergeUnits (extra : List (String × StatusDoc)) :
    ∀ (units : List (String × StatusDoc)) (x : String),
      (x ∈ units.map Prod.fst ∨ x ∈ extra.map Prod.fst) →
      x ∈ (mergeUnits units extra).map Prod.fst := by
  induction extra with
  | nil =>
    intro units x h
    rcases h with h | h
    · exact h
    · simp at h
  | cons kv rest ih =>
    intro units x h
    rw [mergeUnits, List.foldl_cons]
    have step : ∀ y, (y ∈ (dictInsert units kv.1 kv.2).map Prod.fst ∨
        y ∈ rest.map Prod.fst) →
        y ∈ (rest.foldl (fun m kv2 => dictInsert m kv2.1 kv2.2)
          (dictInsert units kv.1 kv.2)).map Prod.fst := ih (dictInsert units kv.1 kv.2)
    rcases h with h | h
    · exact step x (Or.inl (mem_keys_dictInsert_of units kv.1 kv.2 x h))
    · have h4 : x ∈ kv.1 :: rest.map Prod.fst := by simpa using h
      rcases List.mem_cons.mp h4 with rfl | h2
      · exact step kv.1 (Or.inl (self_mem_keys_dictInsert units kv.1 kv.2))
      · exact step x (Or.inr h2)

/-- C7: whenever Phase 1 yields the dict m, discoverUnits re-runs the probe
pass on exactly the fresh neighbor addresses of m (node entries whose
reported name is not already a key of m), with the tripled timeout, and
returns m updated with the Phase-2 dict; every Phase-1 key and every
Phase-2 key is a key of the merged dict. -/
theorem discovery_phase2_neighbors (probe : String → Nat → Option StatusDoc)
    (iprange : String) (timeout : Nat) (m : List (String × StatusDoc))
    (h1 : discoverUnitsInThread probe (phase1IPs iprange) 1 = some m) :
    discoverUnits probe iprange timeout =
      (discoverUnitsInThread probe (neighborIPs m) (timeout * 3)).bind
        (fun extra => some (mergeUnits m extra)) ∧
    (∀ ip, ip ∈ neighborIPs m ↔
      ∃ kv ∈ m, ∃ nd ∈ kv.2.nodes, nd.name ∉ m.map Prod.fst ∧ nd.ip = ip) ∧
    (∀ extra, discoverUnitsInThread probe (neighborIPs m) (timeout * 3) = some extra →
      (∀ k ∈ m.map Prod.fst, k ∈ (mergeUnits m extra).map Prod.fst) ∧
      (∀ k ∈ extra.map Prod.fst, k ∈ (mergeUnits m extra).map Prod.fst)) := by
  refine ⟨?_, fun ip => mem_neighborIPs m ip, ?_⟩
  · rw [discoverUnits, h1, Option.some_bind]
  · intro extra _
    exact ⟨fun k hk => mem_keys_mergeUnits extra m k (Or.inl hk),
      fun k hk => mem_keys_mergeUnits extra m k (Or.inr hk)⟩

/-- The all-failures probe: every request times out. -/
def probeNone : String → Nat → Option StatusDoc := fun _ _ => none

set_option maxRecDepth 8000 in
theorem discovery_phase2_neighbors_witness :
    discoverUnitsInThread probeNone (phase1IPs "10.0.0.1") 1 = some [] ∧
    (discoverUnits probeNone "10.0.0.1" 2 =
      (discoverUnitsInThread probeNone (neighborIPs []) (2 * 3)).bind
        (fun extra => some (mergeUnits [] extra)) ∧
    (∀ ip, ip ∈ neighborIPs ([] : List (String × StatusDoc)) ↔
      ∃ kv ∈ ([] : List (String × StatusDoc)), ∃ nd ∈ kv.2.nodes,
        nd.name ∉ ([] : List (String × StatusDoc)).map Prod.fst ∧ nd.ip = ip) ∧
    (∀ extra, discoverUnitsInThread probeNone (neighborIPs []) (2 * 3) = some extra →
      (∀ k ∈ ([] : List (String × StatusDoc)).map Prod.fst,
        k ∈ (mergeUnits [] extra).map Prod.fst) ∧
      (∀ k ∈ extra.map Prod.fst, k ∈ (mergeUnits [] extra).map Prod.fst))) :=
  ⟨rfl, discovery_phase2_neighbors probeNone "10.0.0.1" 2 [] rfl⟩

lemma foldl_probe_congr (p q : String → Nat → Option StatusDoc) (t : Nat)
    (h : ∀ ip, p ip t = q ip t) (iplist : List String) :
    ∀ acc : Option (List (String × StatusDoc)),
      iplist.foldl (fun (acc : Option (List (String × StatusDoc))) ip =>
        acc.bind (fun m =>
          match p ip t with
          | none => some m
          | some doc => (getUnitName doc).map (fun n => dictInsert m n doc))) acc =
      iplist.foldl (fun (acc : Option (List (String × StatusDoc))) ip =>
        acc.bind (fun m =>
          match q ip t with
          | none => some m
          | some doc => (getUnitName doc).map (fun n => dictInsert m n doc))) acc := by
  induction iplist with
  | nil => intro acc; rfl
  | cons ip rest ih =>
    intro acc
    rw [List.foldl_cons, List.foldl_cons, h ip]
    exact ih _

lemma discoverUnitsInThread_congr (p q : String → Nat → Option StatusDoc)
    (iplist : List String) (t : Nat) (h : ∀ ip, p ip t = q ip t) :
    discoverUnitsInThread p iplist t = discoverUnitsInThread q iplist t := by
  rw [discoverUnitsInThread, discoverUnitsInThread]
  exact foldl_probe_congr p q t h iplist (some [])

/-- C10: discoverUnits consults the probe only at the fixed timeout 1
(Phase 1: the timeout argument is not forwarded to that call) and at
timeout*3 (Phase 2): two probes that agree at those two timeouts give
identical results for every timeout argument; and discoverUnits is exactly
the phase-1 pass at timeout 1 followed by the neighbor pass at
timeout*3. -/
theorem discovery_phase1_fixed_timeout (p q : String → Nat → Option StatusDoc)
    (iprange : String) (timeout : Nat)
    (h1 : ∀ ip, p ip 1 = q ip 1)
    (h3 : ∀ ip, p ip (timeout * 3) = q ip (timeout * 3)) :
    discoverUnits p iprange timeout = discoverUnits q iprange timeout ∧
    discoverUnits p iprange timeout =
      (discoverUnitsInThread p (phase1IPs iprange) 1).bind (fun units =>
        (discoverUnitsInThread p (neighborIPs units) (timeout * 3)).bind
          (fun extra => some (mergeUnits units extra))) := by
  refine ⟨?_, rfl⟩
  rw [discoverUnits, discoverUnits, discoverUnitsInThread_congr p q _ 1 h1]
  exact congrArg _ (funext fun units => by
    rw [discoverUnitsInThread_congr p q _ (timeout * 3) h3])

/-- A probe answering only at the (never used) timeout 0, to witness that
only the timeouts 1 and 3*t are consulted. -/
def probeZeroOnly : String → Nat → Option StatusDoc :=
  fun _ t => if t == 0 then some ⟨some "w", some "1.2.3.4", []⟩ else none

theorem discovery_phase1_fixed_timeout_witness :
    discoverUnits probeNone "192.168.1.7" 2 =
      discoverUnits probeZeroOnly "192.168.1.7" 2 :=
  (discovery_phase1_fixed_timeout probeNone probeZeroOnly "192.168.1.7" 2
    (fun ip => by simp [probeNone, probeZeroOnly])
    (fun ip => by simp [probeNone, probeZeroOnly])).1
